import Mathlib

/-!
# gaia-filter: a verification development

Shallow embedding of `lib/filter.js` from the gaia-filter repository
(MongoDB-style array filtering), together with theorems checking the
natural-language specification against the code.

Modelling conventions:
* JavaScript values are the inductive type `JsVal`.  Numbers are modelled as
  integers (the queries and records in scope use integral numbers only;
  fractional, hexadecimal and exponent string-to-number forms are therefore
  not modelled and parse to NaN).  `JsVal.undefV` is the absent-value
  sentinel (`undefined`).
* A thrown TypeError is modelled with `Option`: `none` means the JavaScript
  call throws, `some b` means it returns the boolean `b`.
* `===`/`==`/`<`/`%`/`indexOf`/truthiness follow the ECMAScript coercion
  rules restricted to this value domain.  Arrays and objects compare by
  reference in JavaScript; two structurally built values are distinct
  references, so reference equality on them is modelled as `false`.
-/

set_option maxRecDepth 4000

namespace Gaia

/-- JavaScript values flowing through the filter: the query expression,
the compiled-plan payloads, and the data records. -/
inductive JsVal where
  | undefV
  | nullV
  | bool (b : Bool)
  | num (n : Int)
  | str (s : String)
  | arr (xs : List JsVal)
  | obj (fs : List (String × JsVal))

/-- ECMAScript ToBoolean on this value domain. -/
def truthy : JsVal → Bool
  | .undefV => false
  | .nullV => false
  | .bool b => b
  | .num n => !(n == 0)
  | .str s => !(s == "")
  | .arr _ => true
  | .obj _ => true

/-- The `typeof p` test used throughout filter.js:
`'string' == typeof p || 'number' == typeof p || 'boolean' == typeof p`. -/
def isLit : JsVal → Bool
  | .str _ => true
  | .num _ => true
  | .bool _ => true
  | _ => false

/-- The `cmd[0] == '$'` test of `parseQuery` (false on the empty string,
where `cmd[0]` is undefined). -/
def headIsDollar (s : String) : Bool :=
  match s.data with
  | [] => false
  | c :: _ => c == '$'

/-- Strict equality `===`.  Arrays and objects are compared by reference in
JavaScript; distinct structurally-built values are never the same reference,
hence `false` there. -/
def strictEq : JsVal → JsVal → Bool
  | .num a, .num b => a == b
  | .str a, .str b => a == b
  | .bool a, .bool b => a == b
  | .undefV, .undefV => true
  | .nullV, .nullV => true
  | _, _ => false

/-- First field with the given key, or the absent sentinel. -/
def lookupField (fs : List (String × JsVal)) (k : String) : JsVal :=
  match fs.find? (fun kv => kv.1 == k) with
  | some kv => kv.2
  | none => .undefV

/-- Is the value `undefined` or `null`? -/
def isNullish : JsVal → Bool
  | .undefV => true
  | .nullV => true
  | _ => false

/-- Join with commas, as `Array#join` does. -/
def joinComma : List String → String
  | [] => ""
  | [s] => s
  | s :: rest => s ++ "," ++ joinComma rest

/-- ECMAScript ToString on this domain.  Array elements that are
`undefined`/`null` stringify to the empty string inside `Array#join`. -/
def jsToStr : JsVal → String
  | .undefV => "undefined"
  | .nullV => "null"
  | .bool b => if b then "true" else "false"
  | .num n => toString n
  | .str s => s
  | .arr xs => joinComma (xs.attach.map (fun e =>
      if isNullish e.1 then "" else jsToStr e.1))
  | .obj _ => "[object Object]"
decreasing_by
  have h := List.sizeOf_lt_of_mem e.2
  simp at h ⊢
  omega

/-- JavaScript whitespace (the common cases). -/
def isWsChar (c : Char) : Bool :=
  c == ' ' || c == '\t' || c == '\n' || c == '\r'

/-- Strip leading and trailing whitespace. -/
def trimChars (cs : List Char) : List Char :=
  ((cs.dropWhile isWsChar).reverse.dropWhile isWsChar).reverse

/-- Parse an all-digit character list as a natural number. -/
def digitsVal (cs : List Char) : Option Nat :=
  if cs = [] then none
  else if cs.all Char.isDigit then
    some (cs.foldl (fun a c => a * 10 + (c.toNat - 48)) 0)
  else none

/-- Parse a signed decimal integer literal. -/
def parseIntChars : List Char → Option Int
  | '+' :: rest => (digitsVal rest).map (fun n => (n : Int))
  | '-' :: rest => (digitsVal rest).map (fun n => -(n : Int))
  | cs => (digitsVal cs).map (fun n => (n : Int))

/-- String-to-integer part of ECMAScript ToNumber.  The empty (or
whitespace-only) string is 0; decimal integer literals with optional sign
parse; anything else (including fractional/hex/exponent forms, which are out
of the modelled domain) is NaN (`none`). -/
def toNumStr (s : String) : Option Int :=
  let t := trimChars s.data
  if t = [] then some 0 else parseIntChars t

/-- A JavaScript number that may be NaN. -/
inductive NumV where
  | nan
  | int (n : Int)

/-- ECMAScript ToNumber on this domain (an array goes through
ToPrimitive, i.e. its joined string). -/
def toNumber : JsVal → NumV
  | .undefV => .nan
  | .nullV => .int 0
  | .bool b => .int (if b then 1 else 0)
  | .num n => .int n
  | .str s =>
      match toNumStr s with
      | some n => .int n
      | none => .nan
  | .arr xs =>
      match toNumStr (jsToStr (.arr xs)) with
      | some n => .int n
      | none => .nan
  | .obj _ => .nan

/-- ToPrimitive with number hint: arrays and objects become their
string form, primitives are unchanged. -/
def toPrim : JsVal → JsVal
  | .arr xs => .str (jsToStr (.arr xs))
  | .obj fs => .str (jsToStr (.obj fs))
  | v => v

/-- Lexicographic comparison of character lists (JavaScript compares
strings by code units; code points agree on this domain). -/
def strLt : List Char → List Char → Bool
  | [], [] => false
  | [], _ :: _ => true
  | _ :: _, [] => false
  | a :: as, b :: bs => if a < b then true else if b < a then false else strLt as bs

/-- Numeric `<` with NaN making the comparison false. -/
def numLtB : NumV → NumV → Bool
  | .int x, .int y => decide (x < y)
  | _, _ => false

/-- Numeric `≤` with NaN making the comparison false. -/
def numLeB : NumV → NumV → Bool
  | .int x, .int y => decide (x ≤ y)
  | _, _ => false

/-- The abstract relational comparison `a < b`: after ToPrimitive, two
strings compare lexicographically, otherwise numerically with NaN making the
comparison false. -/
def jsLtB (a b : JsVal) : Bool :=
  match toPrim a, toPrim b with
  | .str x, .str y => strLt x.toList y.toList
  | pa, pb => numLtB (toNumber pa) (toNumber pb)

/-- The comparison `a <= b` (i.e. not `b < a`, with NaN making the result false). -/
def jsLeB (a b : JsVal) : Bool :=
  match toPrim a, toPrim b with
  | .str x, .str y => !(strLt y.toList x.toList)
  | pa, pb => numLeB (toNumber pa) (toNumber pb)

/-- Booleans coerce to 0/1 first in loose equality. -/
def unBool : JsVal → JsVal
  | .bool b => .num (if b then 1 else 0)
  | v => v

def isNumOrStr : JsVal → Bool
  | .num _ => true
  | .str _ => true
  | _ => false

def isRef : JsVal → Bool
  | .arr _ => true
  | .obj _ => true
  | _ => false

/-- Loose equality on primitives after boolean coercion. -/
def primEqCore : JsVal → JsVal → Bool
  | .num x, .num y => x == y
  | .str x, .str y => x == y
  | .undefV, .undefV => true
  | .nullV, .nullV => true
  | .undefV, .nullV => true
  | .nullV, .undefV => true
  | .num x, .str s =>
      match toNumStr s with
      | some y => x == y
      | none => false
  | .str s, .num y =>
      match toNumStr s with
      | some x => x == y
      | none => false
  | _, _ => false

/-- Loose equality `==`: booleans become numbers; an array/object facing a
number or string goes through ToPrimitive; then primitives compare with
coercion.  Two references are loosely equal only if they are the same
reference, modelled as `false`. -/
def looseEq (a b : JsVal) : Bool :=
  let a1 := unBool a
  let b1 := unBool b
  let a2 := if isRef a1 && isNumOrStr b1 then toPrim a1 else a1
  let b2 := if isRef b1 && isNumOrStr a1 then toPrim b1 else b1
  primEqCore a2 b2

/-- The `length` property: arrays and strings have their length, an object
may carry an explicit `length` field, everything else yields the absent
sentinel. -/
def jsLength : JsVal → JsVal
  | .arr xs => .num xs.length
  | .str s => .num s.length
  | .obj fs => lookupField fs "length"
  | _ => .undefV

/-- Indexing `v[i]` with a non-negative integer. -/
def jsIndex (v : JsVal) (i : Nat) : JsVal :=
  match v with
  | .arr xs => xs.getD i .undefV
  | .str s =>
      match s.toList.get? i with
      | some c => .str c.toString
      | none => .undefV
  | .obj fs => lookupField fs (toString i)
  | _ => .undefV

/-- The element sequence walked by the `for (i = 0; i < v.length; i++)
... v[i]` loops of filter.js.  Arrays give their elements, strings their
characters; values without a usable length give the empty walk.  (An object
carrying a numeric `length` field would also be walked by JavaScript; that
pathological case is outside the modelled domain.) -/
def jsElems : JsVal → List JsVal
  | .arr xs => xs
  | .str s => s.toList.map (fun c => .str c.toString)
  | _ => []

/-- Array `indexOf` over a list, with strict equality, returning -1 on a miss. -/
def arrIndexOfAux : List JsVal → JsVal → Nat → Int
  | [], _, _ => -1
  | x :: rest, t, i => if strictEq x t then (i : Int) else arrIndexOfAux rest t (i + 1)

/-- Does `pat` begin `hay`? -/
def leadMatch : List Char → List Char → Bool
  | [], _ => true
  | _ :: _, [] => false
  | p :: ps, h :: hs => p == h && leadMatch ps hs

/-- String `indexOf`: position of the first occurrence of `pat`, or -1. -/
def strIndexOfAux : List Char → List Char → Int
  | [], pat => if leadMatch pat [] then 0 else -1
  | c :: t, pat =>
      if leadMatch pat (c :: t) then 0
      else
        let r := strIndexOfAux t pat
        if r = -1 then -1 else r + 1

/-- The call `recv.indexOf(target)`: defined on arrays (strict equality) and strings
(substring search after ToString of the argument); any other receiver has no
`indexOf` method and the call throws (`none`). -/
def jsIndexOf (recv target : JsVal) : Option Int :=
  match recv with
  | .arr xs => some (arrIndexOfAux xs target 0)
  | .str s => some (strIndexOfAux s.toList (jsToStr target).toList)
  | _ => none

/-- The `$all` loop body: for each element of `b`, `!~a.indexOf(b[i])`
returns false early; a receiver without `indexOf` throws. -/
def allGo (a : JsVal) : List JsVal → Option Bool
  | [] => some true
  | x :: rest =>
      match jsIndexOf a x with
      | none => none
      | some i => if i = -1 then some false else allGo a rest

/-- Comparator `$size`: `(a && a.length && b) ? a.length == b : false`. -/
def sizeC (a b : JsVal) : Bool :=
  if truthy a && truthy (jsLength a) && truthy b then looseEq (jsLength a) b else false

/-- Comparator `$mod`: `a % b[0] == b[1]`.  The remainder takes the sign of the
dividend; a zero modulus or non-numeric operand gives NaN, and NaN is
loosely equal to nothing. -/
def modC (a b : JsVal) : Bool :=
  match toNumber a, toNumber (jsIndex b 0) with
  | .int x, .int m =>
      if m = 0 then false
      else looseEq (.num (Int.tmod x m)) (jsIndex b 1)
  | _, _ => false

/-- Comparator `$and`: every walked element truthy. -/
def andU (a : JsVal) : Bool := (jsElems a).all truthy

/-- Comparator `$or`: some walked element truthy. -/
def orU (a : JsVal) : Bool := (jsElems a).any truthy

/-- Comparator `$nor`: no walked element truthy. -/
def norU (a : JsVal) : Bool := !(jsElems a).any truthy

/-- The comparator table entries of `Filter.comparators`. -/
inductive Cmp where
  | gt | gte | lt | lte
  | all | exist | mod | eq | ne
  | inn | nin | size
  | cor | cnor | cand
deriving DecidableEq

/-- The lookup `Filter.comparators[test]`: table lookup, `none` when the operator
token is not a key of the table. -/
def comparators (s : String) : Option Cmp :=
  if s = "$gt" then some .gt
  else if s = "$gte" then some .gte
  else if s = "$lt" then some .lt
  else if s = "$lte" then some .lte
  else if s = "$all" then some .all
  else if s = "$exists" then some .exist
  else if s = "$mod" then some .mod
  else if s = "$eq" then some .eq
  else if s = "$ne" then some .ne
  else if s = "$in" then some .inn
  else if s = "$nin" then some .nin
  else if s = "$size" then some .size
  else if s = "$or" then some .cor
  else if s = "$nor" then some .cnor
  else if s = "$and" then some .cand
  else none

/-- The TRAVERSABLE table: `{$and: true, $or: true, $nor: true}`. -/
def TRAVERSABLE (s : String) : Bool :=
  s == "$and" || s == "$or" || s == "$nor"

/-- The value `fn.length`, the declared parameter count used for dispatch in
`_testFilter`. -/
def arity : Cmp → Nat
  | .cor => 1
  | .cnor => 1
  | .cand => 1
  | _ => 2

/-- Call a one-parameter comparator (`fn(params)`).  Only `$and`/`$or`/
`$nor` have `fn.length === 1`, so dispatch never sends another comparator
here. -/
def applyUnary : Cmp → JsVal → Bool
  | .cand, a => andU a
  | .cor, a => orU a
  | .cnor, a => norU a
  | _, _ => true

/-- Call a two-parameter comparator (`fn(val, params)`).  `none` models a
thrown TypeError.  Dispatch never sends the one-parameter comparators
here. -/
def applyBin : Cmp → JsVal → JsVal → Option Bool
  | .gt, a, b => some (jsLtB b a)
  | .gte, a, b => some (jsLeB b a)
  | .lt, a, b => some (jsLtB a b)
  | .lte, a, b => some (jsLeB a b)
  | .all, a, b => allGo a (jsElems b)
  | .exist, a, b => some (looseEq (.bool (truthy a)) b)
  | .mod, a, b => some (modC a b)
  | .eq, a, b => some (strictEq a b)
  | .ne, a, b => some (!strictEq a b)
  | .inn, a, b => (jsIndexOf b a).map (fun i => !(i == -1))
  | .nin, a, b => (jsIndexOf b a).map (fun i => i == -1)
  | .size, a, b => some (sizeC a b)
  | .cand, _, _ => some true
  | .cor, _, _ => some true
  | .cnor, _, _ => some true

/-! ## The compiled evaluation plan -/

mutual
/-- One entry of the stack built by `parseQuery`: the optional `path`
property and the `test` stack from `parseFilter`. -/
inductive QryClause where
  | mk (path : Option String) (test : List CondNode) : QryClause

/-- One entry of the stack built by `parseFilter`: the looked-up comparator
`fn` (absent for an unknown operator token) and the stored `params`. -/
inductive CondNode where
  | mk (fn : Option Cmp) (params : CParams) : CondNode

/-- The `params` as stored: either the raw query argument, or — when the node
traverses — the `st` array of nested `parseQuery` stacks, whose entries may
be `undefined` (the stale `nq` pushed for a literal element). -/
inductive CParams where
  | raw (v : JsVal) : CParams
  | plans (ps : List (Option (List QryClause))) : CParams
end

def QryClause.path : QryClause → Option String
  | .mk p _ => p

def QryClause.test : QryClause → List CondNode
  | .mk _ t => t

def CondNode.fn : CondNode → Option Cmp
  | .mk f _ => f

def CondNode.params : CondNode → CParams
  | .mk _ p => p

/-- The stored `traverse` flag.  `parseFilter` sets `params` to the nested
stacks exactly when it stores `traverse: true`, so the flag is recovered
from the stored shape. -/
def CondNode.traverse (n : CondNode) : Bool :=
  match n.params with
  | .plans _ => true
  | .raw _ => false

/-! ## The compiler: `parseQuery` / `parseFilter`

`for (var cmd in query)` iterates the own enumerable keys; the query
expression object is modelled with its fields in that order, and `for..in`
over an array yields the index strings with the elements.  (`for..in` over a
primitive string or number yields nothing of relevance to the filters in
scope and is modelled as the empty iteration.) -/

/-- Pair an index-string key with each element. -/
def idxPairs : Nat → List JsVal → List (String × JsVal)
  | _, [] => []
  | i, x :: r => (toString i, x) :: idxPairs (i + 1) r

/-- The key/value sequence of `for (k in v)`. -/
def forInPairs : JsVal → List (String × JsVal)
  | .obj fs => fs
  | .arr xs => idxPairs 0 xs
  | _ => []

mutual
/-- Size measure for the compiler's termination: string keys weigh nothing,
so that wrapping a value in `{$eq: v}` does not outweigh the clause it came
from. -/
def jsSize : JsVal → Nat
  | .undefV => 1
  | .nullV => 1
  | .bool _ => 1
  | .num _ => 1
  | .str s => 1 + s.length
  | .arr xs => 1 + jsSizeList xs
  | .obj fs => 1 + jsSizeFields fs

/-- Sum of `1 + jsSize` over a list. -/
def jsSizeList : List JsVal → Nat
  | [] => 0
  | x :: r => 1 + jsSize x + jsSizeList r

/-- Sum of `1 + jsSize` of the values over a field list. -/
def jsSizeFields : List (String × JsVal) → Nat
  | [] => 0
  | kv :: r => 1 + jsSize kv.2 + jsSizeFields r
end

/-- Literal elements weigh 1 in the traversal loop (they are not recursed
into); everything else weighs its size. -/
def litAdj (v : JsVal) : Nat :=
  if isLit v then 1 else jsSize v

def litAdjSum : List JsVal → Nat
  | [] => 0
  | x :: r => litAdj x + litAdjSum r

theorem jsSize_pos (v : JsVal) : 1 ≤ jsSize v := by
  cases v <;> simp [jsSize]

theorem litAdj_pos (v : JsVal) : 1 ≤ litAdj v := by
  unfold litAdj
  split
  · omega
  · exact jsSize_pos v

theorem litAdj_le_jsSize (v : JsVal) : litAdj v ≤ jsSize v := by
  unfold litAdj
  split
  · exact jsSize_pos v
  · omega

theorem mem_jsSizeFields {fs : List (String × JsVal)} {kv : String × JsVal}
    (h : kv ∈ fs) : 1 + jsSize kv.2 ≤ jsSizeFields fs := by
  induction fs with
  | nil => cases h
  | cons a r ih =>
      rcases List.mem_cons.mp h with h1 | h2
      · subst h1; simp [jsSizeFields]
      · have := ih h2; simp [jsSizeFields]; omega

theorem mem_idxPairs {xs : List JsVal} {kv : String × JsVal} :
    ∀ {i : Nat}, kv ∈ idxPairs i xs → kv.2 ∈ xs := by
  induction xs with
  | nil => intro i h; cases h
  | cons a r ih =>
      intro i h
      rcases List.mem_cons.mp h with h1 | h2
      · subst h1; exact List.mem_cons_self _ _
      · exact List.mem_cons_of_mem _ (ih h2)

theorem mem_jsSizeList {xs : List JsVal} {v : JsVal}
    (h : v ∈ xs) : 1 + jsSize v ≤ jsSizeList xs := by
  induction xs with
  | nil => cases h
  | cons a r ih =>
      rcases List.mem_cons.mp h with h1 | h2
      · subst h1; simp [jsSizeList]
      · have := ih h2; simp [jsSizeList]; omega

/-- Any key/value pair produced by `for..in` carries a value strictly
smaller than the iterated object. -/
theorem mem_forInPairs_size {q : JsVal} {kv : String × JsVal}
    (h : kv ∈ forInPairs q) : 2 + jsSize kv.2 ≤ jsSize q := by
  cases q with
  | obj fs =>
      have h2 : kv ∈ fs := h
      have := mem_jsSizeFields h2
      simp [jsSize]; omega
  | arr xs =>
      have h2 : kv ∈ idxPairs 0 xs := h
      have hm : kv.2 ∈ xs := mem_idxPairs h2
      have := mem_jsSizeList hm
      simp [jsSize]; omega
  | undefV => cases h
  | nullV => cases h
  | bool b => cases h
  | num n => cases h
  | str s => cases h

theorem litAdjSum_jsElems (v : JsVal) : 1 + litAdjSum (jsElems v) ≤ jsSize v := by
  cases v with
  | arr xs =>
      have h : litAdjSum xs ≤ jsSizeList xs := by
        induction xs with
        | nil => simp [litAdjSum, jsSizeList]
        | cons a r ih =>
            have := litAdj_le_jsSize a
            simp [litAdjSum, jsSizeList]; omega
      simp [jsElems, jsSize]; omega
  | str s =>
      have h : ∀ cs : List Char, litAdjSum (cs.map (fun c => JsVal.str c.toString)) = cs.length := by
        intro cs
        induction cs with
        | nil => simp [litAdjSum]
        | cons c r ih => simp [litAdjSum, ih, litAdj, isLit]; omega
      simp [jsElems, jsSize, h]
  | undefV => simp [jsElems, jsSize, litAdjSum]
  | nullV => simp [jsElems, jsSize, litAdjSum]
  | bool b => simp [jsElems, jsSize, litAdjSum]
  | num n => simp [jsElems, jsSize, litAdjSum]
  | obj fs =>
      have := jsSize_pos (.obj fs)
      simp [jsElems, litAdjSum]; omega

theorem travLoop_dec_rest (p : JsVal) (rest : List JsVal) :
    3 * (1 + litAdjSum rest) < 3 * (1 + litAdjSum (p :: rest)) := by
  have := litAdj_pos p
  simp [litAdjSum]
  omega

theorem travLoop_dec_elem (p : JsVal) (rest : List JsVal) (h : ¬isLit p = true) :
    3 * jsSize p + 2 < 3 * (1 + litAdjSum (p :: rest)) := by
  have h1 : litAdj p = jsSize p := by simp [litAdj, h]
  simp [litAdjSum]
  omega

mutual
/-- Function `parseQuery(query)`: one clause per `for..in` key.  An operator-sigil
key compiles the whole enclosing expression with no path; a literal value
becomes `{$eq: value}` under its key; an object value compiles under its
key. -/
def parseQuery (q : JsVal) : List QryClause :=
  (forInPairs q).attach.map (fun e =>
    if headIsDollar e.1.1 then QryClause.mk none (parseFilter q)
    else if isLit e.1.2 then
      QryClause.mk (some e.1.1) (parseFilter (.obj [("$eq", e.1.2)]))
    else QryClause.mk (some e.1.1) (parseFilter e.1.2))
termination_by 3 * jsSize q + 2
decreasing_by
  · omega
  · have := mem_forInPairs_size e.2
    simp [jsSize, jsSizeFields]
    omega
  · have := mem_forInPairs_size e.2
    omega

/-- Function `parseFilter(query)`: one node per `for..in` key, looking the key up in
the comparator table (without checking the lookup succeeded).  A
TRAVERSABLE key walks its argument: a literal element clears the `traverse`
flag and pushes the stale nested stack, any other element is compiled with
`parseQuery`; the node stores the nested stacks when `traverse` survived,
the raw argument otherwise. -/
def parseFilter (q : JsVal) : List CondNode :=
  (forInPairs q).attach.map (fun e =>
    if TRAVERSABLE e.1.1 then
      let r := travLoop none true (jsElems e.1.2)
      CondNode.mk (comparators e.1.1) (if r.1 then .plans r.2 else .raw e.1.2)
    else CondNode.mk (comparators e.1.1) (.raw e.1.2))
termination_by 3 * jsSize q + 1
decreasing_by
  · have h1 := mem_forInPairs_size e.2
    have h2 := litAdjSum_jsElems e.1.2
    omega

/-- The `for (i = 0; i < params.length; i++)` loop of `parseFilter`,
threading the `traverse` flag and the last-assigned `nq`. -/
def travLoop (nq : Option (List QryClause)) (trav : Bool) :
    List JsVal → Bool × List (Option (List QryClause))
  | [] => (trav, [])
  | p :: rest =>
      if h : isLit p then
        let r := travLoop nq false rest
        (r.1, nq :: r.2)
      else
        let nq2 := some (parseQuery p)
        let r := travLoop nq2 trav rest
        (r.1, nq2 :: r.2)
termination_by elems => 3 * (1 + litAdjSum elems)
decreasing_by
  · apply travLoop_dec_rest
  · exact travLoop_dec_elem _ _ h
  · apply travLoop_dec_rest
end

/-! ## Deep path lookup -/

/-- A path segment: an object key or a bracket index. -/
inductive PathSeg where
  | key (k : String)
  | idx (n : Nat)

/-- Split a character list at every occurrence of `sep`. -/
def splitOnChar (sep : Char) : List Char → List (List Char)
  | [] => [[]]
  | c :: rest =>
      let r := splitOnChar sep rest
      if c == sep then [] :: r
      else
        match r with
        | g :: gs => (c :: g) :: gs
        | [] => [[c]]

/-- Parse one bracket group, `"0]"` say. -/
def parseBracket (b : List Char) : Option Nat :=
  match b.getLast? with
  | some ']' => digitsVal b.dropLast
  | _ => none

/-- Split one dot-component into its key and bracket indices,
`"d[0]"` becoming the key `d` then the index 0. -/
def pathComp (cs : List Char) : List PathSeg :=
  match splitOnChar '[' cs with
  | [] => []
  | name :: brs =>
      (if name = [] then [] else [PathSeg.key (String.mk name)])
        ++ brs.filterMap (fun b => (parseBracket b).map PathSeg.idx)

/-- Segment list of a dot/bracket path string. -/
def parsePath (p : String) : List PathSeg :=
  (splitOnChar '.' p.data).foldr (fun c acc => pathComp c ++ acc) []

/-- One lookup step. -/
def getSeg (v : JsVal) : PathSeg → JsVal
  | .key k =>
      match v with
      | .obj fs => lookupField fs k
      | .arr xs =>
          match digitsVal k.data with
          | some i => xs.getD i .undefV
          | none => .undefV
      | _ => .undefV
  | .idx i =>
      match v with
      | .arr xs => xs.getD i .undefV
      | .obj fs => lookupField fs (toString i)
      | _ => .undefV

/-- Modelled from the spec: the deep path lookup `properties.get` comes
from the external `tea-properties` module, whose source is not part of this
repository.  Per the spec it resolves dot-separated and bracket-indexed
path segments against nested objects and arrays (`a.b`, `d[0].e`) and
returns the absent-value sentinel, not an error, when any intermediate
segment is missing or the terminal value does not exist. -/
def propGet (v : JsVal) (path : String) : JsVal :=
  (parsePath path).foldl getSeg v

/-! ## The evaluator: `testFilter` / `_testFilter`

`Option Bool` models the outcome of the JavaScript call: `some b` is a
returned boolean, `none` a thrown TypeError (reading `fn.length` of an
absent comparator, calling `indexOf` on a value without that method, or
treating the stale `undefined` entry of a traversal stack as a stack). -/

mutual
/-- Function `testFilter(val, stack)`: every clause is evaluated (no early exit) and
the results are conjoined; the clause value is `properties.get(val, path)`
when the stored path is truthy, `val` itself otherwise. -/
def testFilter (val : JsVal) : List QryClause → Option Bool
  | [] => some true
  | c :: rest => do
      let r ← testClause val c
      let rr ← testFilter val rest
      pure (r && rr)

/-- One iteration of the `testFilter` loop. -/
def testClause (val : JsVal) (c : QryClause) : Option Bool :=
  match c with
  | .mk p t =>
      let el := match p with
        | some s => if s == "" then val else propGet val s
        | none => val
      testGroup el t

/-- Function `_testFilter(val, stack)`: every node is evaluated and the results are
conjoined. -/
def testGroup (val : JsVal) : List CondNode → Option Bool
  | [] => some true
  | n :: rest => do
      let r ← testNode val n
      let rr ← testGroup val rest
      pure (r && rr)

/-- One iteration of the `_testFilter` loop: a traversing node first maps
its nested stacks to booleans against the same value, then the call is
dispatched on `fn.length` — reading it throws when the comparator lookup
failed. -/
def testNode (val : JsVal) (n : CondNode) : Option Bool :=
  match n with
  | .mk fn (.plans ps) => do
      let bs ← evalPlans val ps
      let p := JsVal.arr (bs.map JsVal.bool)
      match fn with
      | none => none
      | some c => if arity c == 1 then some (applyUnary c p) else applyBin c val p
  | .mk fn (.raw v) =>
      match fn with
      | none => none
      | some c => if arity c == 1 then some (applyUnary c v) else applyBin c val v

/-- The traversal loop of `_testFilter`: each nested stack is evaluated
against the same value; the stale `undefined` entry left by a literal
element throws when its `length` is read. -/
def evalPlans (val : JsVal) : List (Option (List QryClause)) → Option (List Bool)
  | [] => some []
  | none :: _ => none
  | some pl :: rest => do
      let b ← testFilter val pl
      let bs ← evalPlans val rest
      pure (b :: bs)
end

/-! ## The public surface -/

/-- Method `Filter.prototype.pass` over a stack: one boolean per record, in
order. -/
def passL (st : List QryClause) : List JsVal → Option (List Bool)
  | [] => some []
  | d :: ds => do
      let b ← testFilter d st
      let rest ← passL st ds
      pure (b :: rest)

/-- Method `Filter.prototype.subset` over a stack: the records whose test is
truthy, in order. -/
def subsetL (st : List QryClause) : List JsVal → Option (List JsVal)
  | [] => some []
  | d :: ds => do
      let b ← testFilter d st
      let rest ← subsetL st ds
      pure (if b then d :: rest else rest)

/-- Method `Filter.prototype.index` over a stack, carrying the next index. -/
def indexFromL (st : List QryClause) (n : Nat) : List JsVal → Option (List Nat)
  | [] => some []
  | d :: ds => do
      let b ← testFilter d st
      let rest ← indexFromL st (n + 1) ds
      pure (if b then n :: rest else rest)

def indexL (st : List QryClause) (data : List JsVal) : Option (List Nat) :=
  indexFromL st 0 data

/-- The filter object: the memoized query and its compiled stack. -/
structure Filter where
  query : JsVal
  stack : List QryClause

/-- The primary export `filter(query)`. -/
def filter (q : JsVal) : Filter :=
  ⟨q, parseQuery q⟩

/-- Method `Filter.prototype.test`. -/
def Filter.test (f : Filter) (d : JsVal) : Option Bool :=
  testFilter d f.stack

/-- Method `Filter.prototype.subset`. -/
def Filter.subset (f : Filter) (data : List JsVal) : Option (List JsVal) :=
  subsetL f.stack data

/-- Method `Filter.prototype.pass`. -/
def Filter.pass (f : Filter) (data : List JsVal) : Option (List Bool) :=
  passL f.stack data

/-- Method `Filter.prototype.index`. -/
def Filter.index (f : Filter) (data : List JsVal) : Option (List Nat) :=
  indexL f.stack data

/-! ## Shared lemmas -/

theorem numLtB_nan_right (x : NumV) : numLtB x .nan = false := by
  cases x <;> rfl

theorem numLeB_nan_right (x : NumV) : numLeB x .nan = false := by
  cases x <;> rfl

/-- Comparing `undefined < b` is always false: `toNumber(undefined)` is NaN. -/
theorem jsLtB_undef_left (b : JsVal) : jsLtB .undefV b = false := by
  unfold jsLtB
  cases hb : toPrim b <;> rfl

/-- Comparing `b < undefined` is always false. -/
theorem jsLtB_undef_right (b : JsVal) : jsLtB b .undefV = false := by
  unfold jsLtB
  cases hb : toPrim b <;> first | rfl | exact numLtB_nan_right _

theorem jsLeB_undef_left (b : JsVal) : jsLeB .undefV b = false := by
  unfold jsLeB
  cases hb : toPrim b <;> rfl

theorem jsLeB_undef_right (b : JsVal) : jsLeB b .undefV = false := by
  unfold jsLeB
  cases hb : toPrim b <;> first | rfl | exact numLeB_nan_right _

/-- Adding `n` to the elements of `range (m+1)` is `n` followed by adding
`n+1` to the elements of `range m`. -/
theorem range_shift (m n : Nat) :
    (List.range (m + 1)).map (fun i => i + n)
      = n :: (List.range m).map (fun i => i + (n + 1)) := by
  rw [List.range_succ_eq_map]
  simp only [List.map_cons, List.map_map, Nat.zero_add]
  congr 1
  apply List.map_congr_left
  intro a _
  simp [Function.comp, Nat.succ_eq_add_one]
  omega

theorem map_add_zero (l : List Nat) : l.map (fun i => i + 0) = l := by
  simp

/-- With an empty stack every record passes. -/
theorem subsetL_nil (A : List JsVal) : subsetL [] A = some A := by
  induction A with
  | nil => rfl
  | cons d ds ih => simp [subsetL, testFilter, ih]

theorem passL_nil (A : List JsVal) : passL [] A = some (A.map fun _ => true) := by
  induction A with
  | nil => rfl
  | cons d ds ih => simp [passL, testFilter, ih]

theorem indexFromL_nil (A : List JsVal) :
    ∀ n : Nat, indexFromL [] n A = some ((List.range A.length).map (fun i => i + n)) := by
  induction A with
  | nil => intro n; rfl
  | cons d ds ih =>
      intro n
      simp [indexFromL, testFilter, ih (n + 1), List.length_cons, range_shift]

/-! ### Unfolding lemmas for the well-founded compiler -/

theorem travLoop_nil (nq : Option (List QryClause)) (trav : Bool) :
    travLoop nq trav [] = (trav, []) := by
  simp [travLoop]

theorem travLoop_cons_lit (nq : Option (List QryClause)) (trav : Bool)
    (p : JsVal) (rest : List JsVal) (h : isLit p = true) :
    travLoop nq trav (p :: rest)
      = ((travLoop nq false rest).1, nq :: (travLoop nq false rest).2) := by
  simp [travLoop, h]

theorem travLoop_cons_obj (nq : Option (List QryClause)) (trav : Bool)
    (p : JsVal) (rest : List JsVal) (h : isLit p = false) :
    travLoop nq trav (p :: rest)
      = ((travLoop (some (parseQuery p)) trav rest).1,
         some (parseQuery p) :: (travLoop (some (parseQuery p)) trav rest).2) := by
  simp [travLoop, h]

theorem parseQuery_nilObj : parseQuery (.obj []) = [] := by
  simp [parseQuery, forInPairs]

/-! ## C8: operator keys at the top level test the record itself -/

/-- The expression of the spec scenario `{$lt: 10, $gt: 5}`. -/
def q8 : JsVal := .obj [("$lt", .num 10), ("$gt", .num 5)]

/-- The condition stack compiled from `{$lt: 10, $gt: 5}`. -/
def pf8 : List CondNode :=
  [CondNode.mk (some .lt) (.raw (.num 10)), CondNode.mk (some .gt) (.raw (.num 5))]

theorem parseFilter_q8 : parseFilter (.obj [("$lt", .num 10), ("$gt", .num 5)]) = pf8 := by
  rw [parseFilter]
  rfl

theorem parseQuery_q8 : parseQuery q8 = [QryClause.mk none pf8, QryClause.mk none pf8] := by
  have h1 : headIsDollar "$lt" = true := rfl
  have h2 : headIsDollar "$gt" = true := rfl
  rw [parseQuery]
  simp only [q8, forInPairs, List.attach, List.attachWith, List.pmap, List.map,
    h1, h2, if_true, parseFilter_q8]

/-- C8: for an expression whose top-level keys are operator tokens, the
conditions are evaluated against the record itself with no sub-path;
`{$lt: 10, $gt: 5}` gives `test(8) = true`, `test(4) = false`,
`test(11) = false`. -/
theorem c8_root_operator_scenario :
    (filter q8).test (.num 8) = some true
    ∧ (filter q8).test (.num 4) = some false
    ∧ (filter q8).test (.num 11) = some false := by
  refine ⟨?_, ?_, ?_⟩ <;>
    · show testFilter _ (parseQuery q8) = _
      rw [parseQuery_q8]
      rfl

/-! ## C9: the empty expression accepts everything -/

/-- C9: `{}` compiles to the empty clause stack; `test` is true on every
record, so `subset` returns the whole array, `pass` all-true, and `index`
every index. -/
theorem c9_empty_query :
    parseQuery (.obj []) = []
    ∧ (∀ d : JsVal, (filter (.obj [])).test d = some true)
    ∧ (∀ A : List JsVal,
        (filter (.obj [])).subset A = some A
        ∧ (filter (.obj [])).pass A = some (A.map fun _ => true)
        ∧ (filter (.obj [])).index A = some (List.range A.length)) := by
  refine ⟨parseQuery_nilObj, fun d => ?_, fun A => ⟨?_, ?_, ?_⟩⟩
  · show testFilter d (parseQuery (.obj [])) = some true
    rw [parseQuery_nilObj]
    rfl
  · show subsetL (parseQuery (.obj [])) A = some A
    rw [parseQuery_nilObj]
    exact subsetL_nil A
  · show passL (parseQuery (.obj [])) A = some (A.map fun _ => true)
    rw [parseQuery_nilObj]
    exact passL_nil A
  · show indexFromL (parseQuery (.obj [])) 0 A = some (List.range A.length)
    rw [parseQuery_nilObj]
    rw [indexFromL_nil A 0, map_add_zero]

/-! ## C1: unknown operator tokens -/

/-- The spec scenario `{field: {$bogus: 1}}`. -/
def qBogus : JsVal := .obj [("field", .obj [("$bogus", .num 1)])]

theorem parseFilter_bogus :
    parseFilter (.obj [("$bogus", .num 1)]) = [CondNode.mk none (.raw (.num 1))] := by
  rw [parseFilter]
  rfl

/-- C1 counterexample: compiling `{field: {$bogus: 1}}` does not fail — no
`UnknownComparator` error exists in the code — and returns a plan whose
condition node carries an absent comparator (`fn` is `undefined`). -/
theorem c1_counterexample :
    parseQuery qBogus = [QryClause.mk (some "field") [CondNode.mk none (.raw (.num 1))]] := by
  have h1 : headIsDollar "field" = false := rfl
  rw [parseQuery]
  simp only [qBogus, forInPairs, List.attach, List.attachWith, List.pmap, List.map,
    h1, Bool.false_eq_true, if_false, isLit, parseFilter_bogus]

/-- C1 (amended): an expression referencing an operator token absent from
the comparator table compiles without error into a node with an absent
comparator; the failure surfaces only at evaluation time, where reading
`fn.length` throws a TypeError (modelled `none`) for every record. -/
theorem c1_unknown_comparator_throws_at_eval (field op : String) (arg record : JsVal)
    (hf : headIsDollar field = false)
    (hop : comparators op = none)
    (ht : TRAVERSABLE op = false) :
    testFilter record (parseQuery (.obj [(field, .obj [(op, arg)])])) = none := by
  rw [parseQuery]
  simp only [forInPairs, List.attach, List.attachWith, List.pmap, List.map,
    hf, Bool.false_eq_true, if_false, isLit]
  rw [parseFilter]
  simp only [forInPairs, List.attach, List.attachWith, List.pmap, List.map,
    ht, Bool.false_eq_true, if_false, hop]
  simp [testFilter, testClause, testGroup, testNode]

theorem c1_witness : testFilter (.obj []) (parseQuery qBogus) = none :=
  c1_unknown_comparator_throws_at_eval "field" "$bogus" (.num 1) (.obj []) rfl rfl rfl

/-! ## C2: evaluation is not total -/

/-- The failing input for C2: `{field: {$all: [1]}}`. -/
def qAllAbsent : JsVal := .obj [("field", .obj [("$all", .arr [.num 1])])]

theorem parseFilter_all1 :
    parseFilter (.obj [("$all", .arr [.num 1])])
      = [CondNode.mk (some .all) (.raw (.arr [.num 1]))] := by
  rw [parseFilter]
  rfl

theorem parseQuery_qAllAbsent :
    parseQuery qAllAbsent
      = [QryClause.mk (some "field") [CondNode.mk (some .all) (.raw (.arr [.num 1]))]] := by
  have h1 : headIsDollar "field" = false := rfl
  rw [parseQuery]
  simp only [qAllAbsent, forInPairs, List.attach, List.attachWith, List.pmap, List.map,
    h1, Bool.false_eq_true, if_false, isLit, parseFilter_all1]

/-- C2 is refuted by the code: on a record where the addressed field is
absent, the `$all` comparator calls `a.indexOf` on the `undefined` subject
and throws a TypeError, so `test` does not return a boolean. -/
theorem c2_all_throws_on_absent_subject :
    (filter qAllAbsent).test (.obj []) = none := by
  show testFilter (.obj []) (parseQuery qAllAbsent) = none
  rw [parseQuery_qAllAbsent]
  rfl

/-! ## C7: the `$size` comparator -/

/-- C7 counterexample: the empty array is a sized collection whose length
equals 0, so the claim demands `$size([], 0) = true`, but the code's
truthiness guard `(a && a.length && b)` rejects a zero length and a zero
argument. -/
theorem c7_counterexample : sizeC (.arr []) (.num 0) = false := rfl

/-- C7 (amended): `$size(a, b)` on an array subject and number argument is
true iff the length equals `b` and `b` is nonzero (equivalently the length
is nonzero); and a subject with no length property still always yields
false. -/
theorem c7_size_amended (xs : List JsVal) (b : Int) (a : JsVal)
    (ha : jsLength a = .undefV) :
    (sizeC (.arr xs) (.num b) = true ↔ ((xs.length : Int) = b ∧ b ≠ 0))
    ∧ sizeC a (.num b) = false := by
  constructor
  · unfold sizeC
    split
    next hc =>
      simp [truthy, jsLength] at hc
      simp [looseEq, unBool, isRef, isNumOrStr, primEqCore, jsLength]
      intro _
      exact hc.2
    next hc =>
      constructor
      · intro h
        cases h
      · intro h
        exfalso
        rcases h with ⟨h1, h2⟩
        apply hc
        simp [truthy, jsLength]
        constructor
        · rintro rfl
          simp at h1
          exact h2 h1.symm
        · exact h2
  · simp [sizeC, ha, truthy]

theorem c7_witness :
    sizeC (.arr [.num 1, .num 2]) (.num 2) = true ∧ sizeC (.num 7) (.num 2) = false := by
  have h := c7_size_amended [.num 1, .num 2] 2 (.num 7) rfl
  exact ⟨h.1.mpr (by norm_num), h.2⟩

/-! ## C10: absent paths never satisfy range conditions -/

/-- C10: when the deep path of a clause resolves to no value, each of the
four ordering comparators on the absent subject is false for every
argument, so the record fails the range condition. -/
theorem c10_absent_path_range (record : JsVal) (field : String) (b : JsVal)
    (hf : headIsDollar field = false)
    (habs : propGet record field = .undefV) :
    testFilter record (parseQuery (.obj [(field, .obj [("$gt", b)])])) = some false
    ∧ testFilter record (parseQuery (.obj [(field, .obj [("$lt", b)])])) = some false
    ∧ testFilter record (parseQuery (.obj [(field, .obj [("$gte", b)])])) = some false
    ∧ testFilter record (parseQuery (.obj [(field, .obj [("$lte", b)])])) = some false := by
  have hel : (if field = "" then record else propGet record field) = .undefV := by
    split
    next he =>
      subst he
      simpa using habs
    next => exact habs
  refine ⟨?_, ?_, ?_, ?_⟩ <;>
  · rw [parseQuery]
    simp only [forInPairs, List.attach, List.attachWith, List.pmap, List.map,
      hf, Bool.false_eq_true, if_false, isLit]
    rw [parseFilter]
    simp only [forInPairs, List.attach, List.attachWith, List.pmap, List.map]
    simp [testFilter, testClause, testGroup, testNode, TRAVERSABLE, comparators, arity,
      applyBin, hel, jsLtB_undef_left, jsLtB_undef_right, jsLeB_undef_left, jsLeB_undef_right,
      jsElems]

theorem c10_witness :
    testFilter (.obj []) (parseQuery (.obj [("age", .obj [("$gt", .num 5)])])) = some false
    ∧ testFilter (.obj []) (parseQuery (.obj [("age", .obj [("$lt", .num 5)])])) = some false
    ∧ testFilter (.obj []) (parseQuery (.obj [("age", .obj [("$gte", .num 5)])])) = some false
    ∧ testFilter (.obj []) (parseQuery (.obj [("age", .obj [("$lte", .num 5)])])) = some false :=
  c10_absent_path_range (.obj []) "age" (.num 5) rfl rfl

/-! ## C5: a bare literal is an implicit `$eq` -/

/-- C5: for a literal value and a field-path key, `{k: v}` compiles to the
same clause as `{k: {$eq: v}}` and hence evaluates identically on every
record. -/
theorem c5_literal_is_eq (k : String) (v d : JsVal)
    (hk : headIsDollar k = false) (hv : isLit v = true) :
    testFilter d (parseQuery (.obj [(k, v)]))
      = testFilter d (parseQuery (.obj [(k, .obj [("$eq", v)])])) := by
  have hL : parseQuery (.obj [(k, v)])
      = [QryClause.mk (some k) (parseFilter (.obj [("$eq", v)]))] := by
    rw [parseQuery]
    simp only [forInPairs, List.attach, List.attachWith, List.pmap, List.map,
      hk, Bool.false_eq_true, if_false, hv, if_true]
  have hR : parseQuery (.obj [(k, .obj [("$eq", v)])])
      = [QryClause.mk (some k) (parseFilter (.obj [("$eq", v)]))] := by
    rw [parseQuery]
    simp only [forInPairs, List.attach, List.attachWith, List.pmap, List.map,
      hk, Bool.false_eq_true, if_false, isLit]
  rw [hL, hR]

theorem c5_witness :
    testFilter (.obj [("hello", .str "universe")])
        (parseQuery (.obj [("hello", .str "universe")]))
      = testFilter (.obj [("hello", .str "universe")])
        (parseQuery (.obj [("hello", .obj [("$eq", .str "universe")])])) :=
  c5_literal_is_eq "hello" (.str "universe") (.obj [("hello", .str "universe")]) rfl rfl

/-! ## C6: multiple conditions in a group are an implicit `$and` -/

/-- C6: `{field: {$gt: X, $lt: Y}}` and
`{field: {$and: [{$gt: X}, {$lt: Y}]}}` evaluate to the same boolean on
every record, for all X and Y. -/
theorem c6_implicit_and (field : String) (X Y d : JsVal)
    (hf : headIsDollar field = false) :
    testFilter d (parseQuery (.obj [(field, .obj [("$gt", X), ("$lt", Y)])]))
      = testFilter d (parseQuery (.obj [(field,
          .obj [("$and", .arr [.obj [("$gt", X)], .obj [("$lt", Y)]])])])) := by
  have hd1 : headIsDollar "$gt" = true := rfl
  have hd2 : headIsDollar "$lt" = true := rfl
  have hpf1 : parseFilter (.obj [("$gt", X)]) = [CondNode.mk (some .gt) (.raw X)] := by
    rw [parseFilter]; rfl
  have hpf2 : parseFilter (.obj [("$lt", Y)]) = [CondNode.mk (some .lt) (.raw Y)] := by
    rw [parseFilter]; rfl
  have hpq1 : parseQuery (.obj [("$gt", X)])
      = [QryClause.mk none [CondNode.mk (some .gt) (.raw X)]] := by
    rw [parseQuery]
    simp only [forInPairs, List.attach, List.attachWith, List.pmap, List.map,
      hd1, if_true, hpf1]
  have hpq2 : parseQuery (.obj [("$lt", Y)])
      = [QryClause.mk none [CondNode.mk (some .lt) (.raw Y)]] := by
    rw [parseQuery]
    simp only [forInPairs, List.attach, List.attachWith, List.pmap, List.map,
      hd2, if_true, hpf2]
  have htrav : travLoop none true [.obj [("$gt", X)], .obj [("$lt", Y)]]
      = (true, [some (parseQuery (.obj [("$gt", X)])), some (parseQuery (.obj [("$lt", Y)]))]) := by
    rw [travLoop_cons_obj none true (.obj [("$gt", X)]) [.obj [("$lt", Y)]] rfl,
      travLoop_cons_obj (some (parseQuery (.obj [("$gt", X)]))) true (.obj [("$lt", Y)]) [] rfl,
      travLoop_nil]
  have hpfL : parseFilter (.obj [("$gt", X), ("$lt", Y)])
      = [CondNode.mk (some .gt) (.raw X), CondNode.mk (some .lt) (.raw Y)] := by
    rw [parseFilter]; rfl
  have hTand : TRAVERSABLE "$and" = true := rfl
  have hCand : comparators "$and" = some .cand := rfl
  have hpfR : parseFilter (.obj [("$and", .arr [.obj [("$gt", X)], .obj [("$lt", Y)]])])
      = [CondNode.mk (some .cand)
          (.plans [some (parseQuery (.obj [("$gt", X)])), some (parseQuery (.obj [("$lt", Y)]))])] := by
    rw [parseFilter]
    simp only [forInPairs, List.attach, List.attachWith, List.pmap, List.map,
      hTand, if_true, jsElems, htrav, hCand]
  have hqL : parseQuery (.obj [(field, .obj [("$gt", X), ("$lt", Y)])])
      = [QryClause.mk (some field) [CondNode.mk (some .gt) (.raw X), CondNode.mk (some .lt) (.raw Y)]] := by
    rw [parseQuery]
    simp only [forInPairs, List.attach, List.attachWith, List.pmap, List.map,
      hf, Bool.false_eq_true, if_false, isLit, hpfL]
  have hqR : parseQuery (.obj [(field, .obj [("$and", .arr [.obj [("$gt", X)], .obj [("$lt", Y)]])])])
      = [QryClause.mk (some field)
          [CondNode.mk (some .cand)
            (.plans [some (parseQuery (.obj [("$gt", X)])), some (parseQuery (.obj [("$lt", Y)]))])]] := by
    rw [parseQuery]
    simp only [forInPairs, List.attach, List.attachWith, List.pmap, List.map,
      hf, Bool.false_eq_true, if_false, isLit, hpfR]
  rw [hqL, hqR, hpq1, hpq2]
  simp [testFilter, testClause, testGroup, testNode, evalPlans, arity, applyUnary,
    applyBin, andU, jsElems, truthy, Bool.and_true]

theorem c6_witness :
    testFilter (.obj [("a", .num 50)]) (parseQuery (.obj [("a", .obj [("$gt", .num 25), ("$lt", .num 75)])]))
      = testFilter (.obj [("a", .num 50)]) (parseQuery (.obj [("a",
          .obj [("$and", .arr [.obj [("$gt", .num 25)], .obj [("$lt", .num 75)]])])])) :=
  c6_implicit_and "a" (.num 25) (.num 75) (.obj [("a", .num 50)]) rfl

/-! ## C3: a literal element disables traversal for the whole node -/

theorem travLoop_fst_false (elems : List JsVal) :
    ∀ nq : Option (List QryClause), (travLoop nq false elems).1 = false := by
  induction elems with
  | nil => intro nq; simp [travLoop_nil]
  | cons p rest ih =>
      intro nq
      by_cases h : isLit p = true
      · rw [travLoop_cons_lit _ _ _ _ h]
        exact ih nq
      · have h2 : isLit p = false := by simpa using h
        rw [travLoop_cons_obj _ _ _ _ h2]
        exact ih _

theorem travLoop_fst_of_lit :
    ∀ (elems : List JsVal), (∃ e ∈ elems, isLit e = true) →
      ∀ (nq : Option (List QryClause)) (trav : Bool), (travLoop nq trav elems).1 = false := by
  intro elems
  induction elems with
  | nil =>
      intro h
      rcases h with ⟨e, he, _⟩
      cases he
  | cons p rest ih =>
      intro hlit nq trav
      by_cases h : isLit p = true
      · rw [travLoop_cons_lit _ _ _ _ h]
        exact travLoop_fst_false rest nq
      · have h2 : isLit p = false := by simpa using h
        rw [travLoop_cons_obj _ _ _ _ h2]
        apply ih
        rcases hlit with ⟨e, he, hl⟩
        rcases List.mem_cons.mp he with rfl | hm
        · exact absurd hl h
        · exact ⟨e, hm, hl⟩

/-- C3: for a logical (traversable) operator whose argument array contains
at least one literal element, the compiled node stores no nested plans: its
`traverse` flag is false and its `params` are the raw argument array, so
evaluation calls the comparator directly on that raw array and the nested
plans compiled from any object elements are discarded. -/
theorem c3_literal_disables_traversal (op : String) (elems : List JsVal) (c : Cmp)
    (hT : TRAVERSABLE op = true) (hc : comparators op = some c)
    (hlit : ∃ e ∈ elems, isLit e = true) :
    parseFilter (.obj [(op, .arr elems)]) = [CondNode.mk (some c) (.raw (.arr elems))]
    ∧ (CondNode.mk (some c) (.raw (.arr elems))).traverse = false
    ∧ ∀ val, testGroup val (parseFilter (.obj [(op, .arr elems)]))
        = some (applyUnary c (.arr elems)) := by
  have hops : op = "$and" ∨ op = "$or" ∨ op = "$nor" := by
    simpa [TRAVERSABLE, or_assoc] using hT
  have harity : arity c = 1 := by
    rcases hops with rfl | rfl | rfl
    · rw [show comparators "$and" = some Cmp.cand from rfl] at hc
      simp at hc
      subst hc
      rfl
    · rw [show comparators "$or" = some Cmp.cor from rfl] at hc
      simp at hc
      subst hc
      rfl
    · rw [show comparators "$nor" = some Cmp.cnor from rfl] at hc
      simp at hc
      subst hc
      rfl
  have htl : (travLoop none true elems).1 = false := travLoop_fst_of_lit elems hlit none true
  have hpf : parseFilter (.obj [(op, .arr elems)]) = [CondNode.mk (some c) (.raw (.arr elems))] := by
    rw [parseFilter]
    simp only [forInPairs, List.attach, List.attachWith, List.pmap, List.map,
      hT, if_true, jsElems, htl, Bool.false_eq_true, if_false, hc]
  refine ⟨hpf, rfl, fun val => ?_⟩
  rw [hpf]
  simp [testGroup, testNode, harity]

theorem c3_witness :
    parseFilter (.obj [("$or", .arr [.num 1, .obj [("a", .num 1)]])])
      = [CondNode.mk (some .cor) (.raw (.arr [.num 1, .obj [("a", .num 1)]]))]
    ∧ testGroup (.num 3) (parseFilter (.obj [("$or", .arr [.num 1, .obj [("a", .num 1)]])]))
      = some (applyUnary .cor (.arr [.num 1, .obj [("a", .num 1)]])) := by
  have h := c3_literal_disables_traversal "$or" [.num 1, .obj [("a", .num 1)]] .cor rfl rfl
    ⟨.num 1, by simp, rfl⟩
  exact ⟨h.1, h.2.2 (.num 3)⟩

/-! ## C4: subset / pass / index agree with test -/

theorem filter_range_cons {α : Type} (b : Bool) (bs2 : List Bool) (f : Nat → α) :
    ((List.range (bs2.length + 1)).filter (fun i => (b :: bs2).getD i false)).map f
      = (if b then [f 0] else [])
        ++ ((List.range bs2.length).filter (fun i => bs2.getD i false)).map (fun i => f (i + 1)) := by
  rw [List.range_succ_eq_map, List.filter_cons]
  simp only [List.getD_cons_zero]
  rw [List.filter_map]
  cases b <;>
    simp [List.map_map, Function.comp_def, Nat.succ_eq_add_one,
      List.getElem?_cons_succ, List.getD_cons_succ]

theorem map_add_shift (l : List Nat) (n : Nat) :
    l.map (fun i => (i + 1) + n) = l.map (fun i => i + (n + 1)) := by
  apply List.map_congr_left
  intro a _
  omega

theorem c4_aux (st : List QryClause) :
    ∀ (A : List JsVal) (bs : List Bool), passL st A = some bs →
      bs.length = A.length
      ∧ (∀ i, i < A.length → testFilter (A.getD i .undefV) st = some (bs.getD i false))
      ∧ (∀ n, indexFromL st n A
          = some (((List.range bs.length).filter (fun i => bs.getD i false)).map (fun i => i + n)))
      ∧ subsetL st A
          = some (((List.range bs.length).filter (fun i => bs.getD i false)).map
              (fun i => A.getD i .undefV)) := by
  intro A
  induction A with
  | nil =>
      intro bs h
      simp [passL] at h
      subst h
      refine ⟨rfl, ?_, ?_, ?_⟩
      · intro i hi
        exact absurd hi (Nat.not_lt_zero i)
      · intro n
        simp [indexFromL]
      · simp [subsetL]
  | cons d ds ih =>
      intro bs h
      cases hb : testFilter d st with
      | none => simp [passL, hb] at h
      | some b =>
          cases hrest : passL st ds with
          | none => simp [passL, hb, hrest] at h
          | some bs2 =>
              have hbs : bs = b :: bs2 := by
                simp [passL, hb, hrest] at h
                exact h.symm
              subst hbs
              obtain ⟨ihlen, ihget, ihidx, ihsub⟩ := ih bs2 hrest
              refine ⟨by simp [ihlen], ?_, ?_, ?_⟩
              · intro i hi
                cases i with
                | zero => simpa using hb
                | succ j =>
                    simp only [List.getD_cons_succ]
                    exact ihget j (by simpa using hi)
              · intro n
                simp only [indexFromL, hb, ihidx (n + 1), Option.bind_some]
                rw [List.length_cons, filter_range_cons b bs2 (fun i => i + n)]
                cases b <;> simp [map_add_shift]
              · simp only [subsetL, hb, ihsub, Option.bind_some]
                rw [List.length_cons, filter_range_cons b bs2 (fun i => (d :: ds).getD i .undefV)]
                cases b <;> simp [List.getD_cons_succ, List.getD_cons_zero]

/-- C4: whenever `pass` returns booleans, it has one per record with
`pass(A)[i] = test(A[i])`; `index(A)` is the strictly ascending list of
exactly the indices where `pass(A)[i]` is true (the true-filtered index
range, in order); and `subset(A)` is `[A[i] for i in index(A)]`. -/
theorem c4_shaper (f : Filter) (A : List JsVal) (bs : List Bool)
    (h : f.pass A = some bs) :
    bs.length = A.length
    ∧ (∀ i, i < A.length → f.test (A.getD i .undefV) = some (bs.getD i false))
    ∧ f.index A = some ((List.range A.length).filter (fun i => bs.getD i false))
    ∧ f.subset A = some (((List.range A.length).filter (fun i => bs.getD i false)).map
        (fun i => A.getD i .undefV)) := by
  obtain ⟨h1, h2, h3, h4⟩ := c4_aux f.stack A bs h
  refine ⟨h1, h2, ?_, ?_⟩
  · show indexFromL f.stack 0 A = _
    rw [h3 0, map_add_zero, h1]
  · show subsetL f.stack A = _
    rw [h4, h1]

theorem c4_witness :
    (filter (.obj [("hello", .bool true)])).index
        [.obj [("hello", .bool true)], .obj [("x", .num 1)]] = some [0]
    ∧ (filter (.obj [("hello", .bool true)])).subset
        [.obj [("hello", .bool true)], .obj [("x", .num 1)]]
      = some [.obj [("hello", .bool true)]] := by
  have hpf : parseFilter (.obj [("$eq", .bool true)])
      = [CondNode.mk (some .eq) (.raw (.bool true))] := by
    rw [parseFilter]
    rfl
  have hq : parseQuery (.obj [("hello", .bool true)])
      = [QryClause.mk (some "hello") [CondNode.mk (some .eq) (.raw (.bool true))]] := by
    have hh : headIsDollar "hello" = false := rfl
    rw [parseQuery]
    simp only [forInPairs, List.attach, List.attachWith, List.pmap, List.map,
      hh, Bool.false_eq_true, if_false, isLit, if_true, hpf]
  have hpass : (filter (.obj [("hello", .bool true)])).pass
      [.obj [("hello", .bool true)], .obj [("x", .num 1)]] = some [true, false] := by
    show passL (parseQuery (.obj [("hello", .bool true)])) _ = _
    rw [hq]
    rfl
  have h := c4_shaper (filter (.obj [("hello", .bool true)]))
    [.obj [("hello", .bool true)], .obj [("x", .num 1)]] [true, false] hpass
  refine ⟨?_, ?_⟩
  · rw [h.2.2.1]
    rfl
  · rw [h.2.2.2]
    rfl

end Gaia
